import Mathlib

/-!
Shallow embedding of `src/crates/vfio-ioctls/src/vfio_device.rs`.

Kernel interactions (ioctls, file opens) are modelled by explicit oracle
parameters carrying the status the kernel would return; machine integers
are `Nat` with explicit `% 2^64` where wrapping matters.
-/

namespace Vfio

/-- Constants from the `vfio_bindings` crate (Linux UAPI `vfio.h`). -/
def VFIO_GROUP_FLAGS_VIABLE : Nat := 1

def VFIO_GROUP_FLAGS_CONTAINER_SET : Nat := 2

def VFIO_REGION_INFO_FLAG_READ : Nat := 1

def VFIO_REGION_INFO_FLAG_WRITE : Nat := 2

def VFIO_REGION_INFO_FLAG_MMAP : Nat := 4

def VFIO_REGION_INFO_FLAG_CAPS : Nat := 8

def VFIO_REGION_INFO_CAP_SPARSE_MMAP : Nat := 1

def VFIO_REGION_INFO_CAP_TYPE : Nat := 2

def VFIO_REGION_INFO_CAP_MSIX_MAPPABLE : Nat := 3

def VFIO_REGION_INFO_CAP_NVLINK2_SSATGT : Nat := 4

def VFIO_REGION_INFO_CAP_NVLINK2_LNKSPD : Nat := 5

def VFIO_PCI_BAR0_REGION_INDEX : Nat := 0

def VFIO_PCI_INTX_IRQ_INDEX : Nat := 0

def VFIO_PCI_MSI_IRQ_INDEX : Nat := 1

def VFIO_PCI_MSIX_IRQ_INDEX : Nat := 2

/-- `mem::size_of::<vfio_region_info>()`: argsz + flags + index + cap_offset
(4 bytes each) + size + offset (8 bytes each) = 32 bytes. -/
def regionInfoSize : Nat := 32

/-- `mem::size_of::<vfio_info_cap_header>()`: id + version (2 bytes each) +
next (4 bytes) = 8 bytes. -/
def capHeaderSize : Nat := 8

/-- 2^64, the modulus of Rust `u64` arithmetic. -/
def u64Mod : Nat := 18446744073709551616

/-- The error variants of `VfioError` used by the embedded operations. -/
inductive VfioError where
  | OpenContainer
  | OpenGroup
  | GetGroupStatus
  | GroupViable
  | GroupSetContainer
  | ContainerSetIOMMU
  | SetDeviceAttr
  | VfioDeviceGetInfo
  | VfioDeviceGetRegionInfo
  | VfioDeviceSetIrq
  | InvalidPath
  | IommuDmaMap
  | IommuDmaUnmap
deriving Repr, DecidableEq

/-- `VfioIrq`: flags, starting index, number of interrupts. -/
structure VfioIrq where
  flags : Nat
  index : Nat
  count : Nat
deriving Repr, DecidableEq

/-- `VfioRegionSparseMmapArea`. -/
structure VfioRegionSparseMmapArea where
  offset : Nat
  size : Nat
deriving Repr, DecidableEq

/-- `VfioRegionInfoCap`: the tagged capability variants. -/
inductive VfioRegionInfoCap where
  | SparseMmap (areas : List VfioRegionSparseMmapArea)
  | Type_ (type_ : Nat) (subtype : Nat)
  | MsixMappable
  | Nvlink2Ssatgt (tgt : Nat)
  | Nvlink2Lnkspd (link_speed : Nat)
deriving Repr, DecidableEq

/-- `VfioRegion`: flags, size, offset and decoded capability list. -/
structure VfioRegion where
  flags : Nat
  size : Nat
  offset : Nat
  caps : List VfioRegionInfoCap
deriving Repr, DecidableEq

/-- `VfioDevice`: the fields the embedded operations read.  The `irqs`
HashMap is modelled as an association list with distinct keys. -/
structure VfioDevice where
  flags : Nat
  regions : List VfioRegion
  irqs : List (Nat × VfioIrq)
deriving Repr, DecidableEq

/-- HashMap lookup `self.irqs.get(&irq_index)`. -/
def irqsGet (irqs : List (Nat × VfioIrq)) (idx : Nat) : Option VfioIrq :=
  (irqs.find? (fun p => p.1 = idx)).map (fun p => p.2)

/-!  ### `VfioGroup::new` (vfio_device.rs lines 348-371)

Opens `/dev/vfio/<id>`, issues `VFIO_GROUP_GET_STATUS`, and rejects the
group unless `group_status.flags != VFIO_GROUP_FLAGS_VIABLE` is false,
i.e. unless the flags word is exactly `VFIO_GROUP_FLAGS_VIABLE`.
The file open and the ioctl are modelled by an oracle: `openOk` is whether
the open succeeded, `statusRet` the ioctl status, `statusFlags` the flags
word the kernel wrote into `group_status`. -/

/-- `VfioGroup::new`, returning the constructed group's id on success. -/
def VfioGroup.new (openOk : Bool) (statusRet : Int) (statusFlags : Nat)
    (id : Nat) : Except VfioError Nat :=
  if openOk = false then .error .OpenGroup
  else if statusRet < 0 then .error .GetGroupStatus
  else if statusFlags ≠ VFIO_GROUP_FLAGS_VIABLE then .error .GroupViable
  else .ok id

/-!  ### `VfioContainer::put_group` (vfio_device.rs lines 219-245)

The group map is modelled as an association list from group id to unit
(the `Arc<VfioGroup>` value itself plays no role in the map logic);
`strongCount` is `Arc::strong_count(&group)` at entry, `delGroupOk` the
result of `device_del_group` (the hypervisor detach), `unbindRet` the
status of the `VFIO_GROUP_UNSET_CONTAINER` ioctl. -/

/-- `HashMap::remove(&group.id())` on the association-list model. -/
def groupsRemove (groups : List (Nat × Unit)) (gid : Nat) : List (Nat × Unit) :=
  groups.filter (fun p => p.1 ≠ gid)

/-- `VfioContainer::put_group`: returns the group map after the call. -/
def VfioContainer.put_group (groups : List (Nat × Unit)) (gid : Nat)
    (strongCount : Nat) (delGroupOk : Bool) (unbindRet : Int) :
    List (Nat × Unit) :=
  if strongCount = 3 then
    if delGroupOk = false then groups
    else if unbindRet < 0 then groups
    else groupsRemove groups gid
  else groups

/-!  ### `VfioDevice::trigger_irq` (vfio_device.rs lines 777-802)

Looks the index up in the irq map, rejects when `irq.count < vector`,
then issues `VFIO_DEVICE_SET_IRQS`.  The returned pair records whether the
ioctl was issued and the `Result`; `kernelRet` is the ioctl status. -/

/-- `VfioDevice::trigger_irq`.  First component: whether the
`VFIO_DEVICE_SET_IRQS` ioctl was issued. -/
def VfioDevice.trigger_irq (dev : VfioDevice) (kernelRet : Int)
    (irq_index vector : Nat) : Bool × Except VfioError Unit :=
  match irqsGet dev.irqs irq_index with
  | none => (false, .error .VfioDeviceSetIrq)
  | some irq =>
    if irq.count < vector then (false, .error .VfioDeviceSetIrq)
    else if kernelRet < 0 then (true, .error .VfioDeviceSetIrq)
    else (true, .ok ())

/-!  ### Region accessors (vfio_device.rs lines 940-984) -/

/-- `VfioDevice::get_region_flags`. -/
def VfioDevice.get_region_flags (dev : VfioDevice) (index : Nat) : Nat :=
  match dev.regions.get? index with
  | some v => v.flags
  | none => 0

/-- `VfioDevice::get_region_offset`. -/
def VfioDevice.get_region_offset (dev : VfioDevice) (index : Nat) : Nat :=
  match dev.regions.get? index with
  | some v => v.offset
  | none => 0

/-- `VfioDevice::get_region_size`. -/
def VfioDevice.get_region_size (dev : VfioDevice) (index : Nat) : Nat :=
  match dev.regions.get? index with
  | some v => v.size
  | none => 0

/-- `VfioDevice::get_region_caps`. -/
def VfioDevice.get_region_caps (dev : VfioDevice) (index : Nat) :
    List VfioRegionInfoCap :=
  match dev.regions.get? index with
  | some v => v.caps
  | none => []

/-!  ### `VfioDevice::region_read` / `region_write`
(vfio_device.rs lines 992-1053)

Both return early (warn-and-return no-op) when the index is out of range
or `size > region.size || addr + size > region.size`; `region_write`
additionally requires `VFIO_REGION_INFO_FLAG_WRITE`.  `buf.len() as u64`
and `addr` are `u64` values, and `addr + size` is Rust `u64` addition,
i.e. addition modulo 2^64.  The model returns whether a transfer was
attempted on the device file. -/

/-- `VfioDevice::region_read`: `true` iff the positioned read was
attempted. -/
def VfioDevice.region_read (dev : VfioDevice) (index bufLen addr : Nat) :
    Bool :=
  match dev.regions.get? index with
  | none => false
  | some region =>
    if region.size < bufLen ∨ region.size < (addr + bufLen) % u64Mod then
      false
    else true

/-- `VfioDevice::region_write`: `true` iff the positioned write was
attempted. -/
def VfioDevice.region_write (dev : VfioDevice) (index bufLen addr : Nat) :
    Bool :=
  match dev.regions.get? index with
  | none => false
  | some stub =>
    if stub.size < bufLen ∨ stub.size < (addr + bufLen) % u64Mod ∨
        stub.flags &&& VFIO_REGION_INFO_FLAG_WRITE = 0 then
      false
    else true

/-!  ### `VfioContainer::get_group` (vfio_device.rs lines 179-217)

The container state tracks the group map's key set (`groups`), the set of
group ids currently bound to the container at kernel level via
`VFIO_GROUP_SET_CONTAINER` (`bound`), whether `VFIO_SET_IOMMU` has
succeeded (`iommuSet`), and the ids attached to the hypervisor driver
(`attached`).  The kernel/hypervisor replies are an oracle: `groupNew` is
the result of `VfioGroup::new`, `bindRet` the `VFIO_GROUP_SET_CONTAINER`
status, `setIommuRet` the `VFIO_SET_IOMMU` status, `attachOk` whether
`device_add_group` succeeded.  The rollback `VFIO_GROUP_UNSET_CONTAINER`
calls (whose status the source discards with `let _ = ...`) are modelled
as effective: they restore `bound` to its pre-call value. -/

/-- Kernel-visible state of one `VfioContainer`. -/
structure ContainerState where
  groups : List Nat
  bound : List Nat
  iommuSet : Bool
  attached : List Nat
deriving Repr, DecidableEq

/-- Oracle for the kernel/hypervisor calls made inside `get_group`. -/
structure GetGroupOracle where
  groupNew : Except VfioError Unit
  bindRet : Int
  setIommuRet : Int
  attachOk : Bool

/-- The all-success oracle. -/
def okOracle : GetGroupOracle :=
  { groupNew := .ok (), bindRet := 0, setIommuRet := 0, attachOk := true }

/-- `VfioContainer::get_group`: returns the post-call state and the
result (the resolved group id on success).  Each branch's state is the
net effect of the source path that reaches it: a `VFIO_GROUP_SET_CONTAINER`
followed by the rollback `VFIO_GROUP_UNSET_CONTAINER` leaves `bound`
unchanged, a successful `set_iommu` on the first group sets `iommuSet`
(and is not rolled back when the later hypervisor attach fails). -/
def VfioContainer.get_group (st : ContainerState) (o : GetGroupOracle)
    (gid : Nat) : ContainerState × Except VfioError Nat :=
  if gid ∈ st.groups then (st, .ok gid)
  else
    match o.groupNew with
    | .error e => (st, .error e)
    | .ok _ =>
      if o.bindRet < 0 then (st, .error .GroupSetContainer)
      else if st.groups.length = 0 ∧ o.setIommuRet < 0 then
        (st, .error .ContainerSetIOMMU)
      else if o.attachOk = false then
        (if st.groups.length = 0 then { st with iommuSet := true } else st,
          .error .SetDeviceAttr)
      else
        (if st.groups.length = 0 then
          { st with
              groups := gid :: st.groups,
              bound := gid :: st.bound,
              iommuSet := true,
              attached := gid :: st.attached }
        else
          { st with
              groups := gid :: st.groups,
              bound := gid :: st.bound,
              attached := gid :: st.attached }, .ok gid)

/-!  ### `VfioDeviceInfo::get_regions` (vfio_device.rs lines 661-706)

The loop runs `i` from `VFIO_PCI_BAR0_REGION_INDEX` (= 0) up to
`num_regions`; the kernel's per-index replies are an oracle `q`:
`ioctlRet` is the `VFIO_DEVICE_GET_REGION_INFO` status, `flags`, `size`,
`offset` the info the kernel wrote, `mapOk` whether `get_region_map`
succeeded and `caps` the capabilities it decoded.  A failed index is
logged and skipped (`continue`). -/

/-- Kernel reply for one region index inside `get_regions`. -/
structure RegionQuery where
  ioctlRet : Int
  flags : Nat
  size : Nat
  offset : Nat
  mapOk : Bool
  caps : List VfioRegionInfoCap

/-- Whether the loop body for index `i` reaches `regions.push(region)`. -/
def querySuccess (q : Nat → RegionQuery) (i : Nat) : Bool :=
  !decide ((q i).ioctlRet < 0) && (q i).mapOk

/-- The `VfioRegion` the loop body builds for index `i`. -/
def regionOf (q : Nat → RegionQuery) (i : Nat) : VfioRegion :=
  { flags := (q i).flags, size := (q i).size, offset := (q i).offset,
    caps := (q i).caps }

/-- The discovery loop of `get_regions`, starting at kernel index `i`
with `n` indices left. -/
def get_regions_from (q : Nat → RegionQuery) : Nat → Nat → List VfioRegion
  | _, 0 => []
  | i, n + 1 =>
    if querySuccess q i then regionOf q i :: get_regions_from q (i + 1) n
    else get_regions_from q (i + 1) n

/-- The kernel indices the loop keeps, in visit order. -/
def succIndicesFrom (q : Nat → RegionQuery) : Nat → Nat → List Nat
  | _, 0 => []
  | i, n + 1 =>
    if querySuccess q i then i :: succIndicesFrom q (i + 1) n
    else succIndicesFrom q (i + 1) n

/-- `VfioDeviceInfo::get_regions`. -/
def VfioDeviceInfo.get_regions (num_regions : Nat)
    (q : Nat → RegionQuery) : List VfioRegion :=
  get_regions_from q VFIO_PCI_BAR0_REGION_INDEX num_regions

/-!  ### The capability-chain walk of `VfioDeviceInfo::get_region_map`
(vfio_device.rs lines 588-656)

The reply buffer is modelled as the whole address space reachable from
`info_ptr`: a function `mem : Nat → Nat` giving the byte at each offset
(the source's raw pointer reads are not stopped at the allocation's end,
so the model must not be either; `argsz` marks where the buffer the code
allocated ends).  Little-endian multi-byte reads follow the `repr(C)`
layouts of the vfio UAPI structures. -/

/-- One byte of the reply buffer / surrounding memory. -/
def readByte (mem : Nat → Nat) (off : Nat) : Nat := mem off % 256

/-- Little-endian `u16` at `off`. -/
def readU16 (mem : Nat → Nat) (off : Nat) : Nat :=
  readByte mem off + 256 * readByte mem (off + 1)

/-- Little-endian `u32` at `off`. -/
def readU32 (mem : Nat → Nat) (off : Nat) : Nat :=
  readByte mem off + 256 * readByte mem (off + 1) +
    65536 * readByte mem (off + 2) + 16777216 * readByte mem (off + 3)

/-- Little-endian `u64` at `off`. -/
def readU64 (mem : Nat → Nat) (off : Nat) : Nat :=
  readU32 mem off + 4294967296 * readU32 mem (off + 4)

/-- `vfio_info_cap_header.id` of the header at `off`. -/
def capId (mem : Nat → Nat) (off : Nat) : Nat := readU16 mem off

/-- `vfio_info_cap_header.next` of the header at `off`. -/
def capNext (mem : Nat → Nat) (off : Nat) : Nat := readU32 mem (off + 4)

/-- The `nr_areas` sparse-mmap areas starting at byte `base`
(`vfio_region_sparse_mmap_area` is `{offset: u64, size: u64}`). -/
def sparseAreas (mem : Nat → Nat) (base nr_areas : Nat) :
    List VfioRegionSparseMmapArea :=
  (List.range nr_areas).map fun j =>
    { offset := readU64 mem (base + 16 * j),
      size := readU64 mem (base + 16 * j + 8) }

/-- The `match u32::from(cap_header.id)` body: the capability entry the
iteration at `off` pushes, if any (unknown ids push nothing). -/
def decodeCap (mem : Nat → Nat) (off : Nat) : Option VfioRegionInfoCap :=
  let id := capId mem off
  if id = VFIO_REGION_INFO_CAP_SPARSE_MMAP then
    some (.SparseMmap (sparseAreas mem (off + 16) (readU32 mem (off + 8))))
  else if id = VFIO_REGION_INFO_CAP_TYPE then
    some (.Type_ (readU32 mem (off + 8)) (readU32 mem (off + 12)))
  else if id = VFIO_REGION_INFO_CAP_MSIX_MAPPABLE then
    some .MsixMappable
  else if id = VFIO_REGION_INFO_CAP_NVLINK2_SSATGT then
    some (.Nvlink2Ssatgt (readU64 mem (off + 8)))
  else if id = VFIO_REGION_INFO_CAP_NVLINK2_LNKSPD then
    some (.Nvlink2Lnkspd (readU32 mem (off + 8)))
  else none

/-- The exclusive end of the bytes the iteration at `off` dereferences:
the 8-byte header always, plus the capability-specific structure for the
recognized ids (sparse mmap also reads its `nr_areas` trailing areas). -/
def capExtent (mem : Nat → Nat) (off : Nat) : Nat :=
  let id := capId mem off
  if id = VFIO_REGION_INFO_CAP_SPARSE_MMAP then
    off + 16 + 16 * readU32 mem (off + 8)
  else if id = VFIO_REGION_INFO_CAP_TYPE then off + 16
  else if id = VFIO_REGION_INFO_CAP_MSIX_MAPPABLE then off + capHeaderSize
  else if id = VFIO_REGION_INFO_CAP_NVLINK2_SSATGT then off + 16
  else if id = VFIO_REGION_INFO_CAP_NVLINK2_LNKSPD then off + 16
  else off + capHeaderSize

/-- The `while next_cap_offset >= region_info_size` loop, with explicit
fuel since the source loop has no termination guard.  Returns `none` when
the fuel runs out before the loop exits, otherwise the list of visited
header offsets (in visit order) and the decoded capability list. -/
def capWalk (mem : Nat → Nat) :
    Nat → Nat → Option (List Nat × List VfioRegionInfoCap)
  | 0, off => if off < regionInfoSize then some ([], []) else none
  | f + 1, off =>
    if off < regionInfoSize then some ([], [])
    else
      match capWalk mem f (capNext mem off) with
      | none => none
      | some (offs, caps) =>
        some (off :: offs, (decodeCap mem off).toList ++ caps)

/-- Whether every byte the walk dereferences lies inside the `argsz`-sized
buffer: each visited iteration's read extent must end at or before
`argsz`.  Fuel mirrors `capWalk`'s. -/
def walkReadsWithin (mem : Nat → Nat) (argsz : Nat) : Nat → Nat → Bool
  | 0, _ => true
  | f + 1, off =>
    if off < regionInfoSize then true
    else
      decide (capExtent mem off ≤ argsz) &&
        walkReadsWithin mem argsz f (capNext mem off)

/-- `VfioDeviceInfo::get_region_map` after a successful re-query ioctl:
no capability flag or no room past the fixed structure means an empty
chain, otherwise the walk starts at the reported `cap_offset`. -/
def VfioDeviceInfo.get_region_map (mem : Nat → Nat)
    (flags argsz cap_offset fuel : Nat) :
    Option (List Nat × List VfioRegionInfoCap) :=
  if flags &&& VFIO_REGION_INFO_FLAG_CAPS = 0 ∨ argsz ≤ regionInfoSize then
    some ([], [])
  else capWalk mem fuel cap_offset

/-!  ## Concrete fixtures used by witnesses and counterexamples -/

/-- A one-region device: readable and writable, 4096 bytes at offset 0. -/
def rwDev : VfioDevice :=
  { flags := 0,
    regions := [{ flags := 3, size := 4096, offset := 0, caps := [] }],
    irqs := [] }

/-- A one-region device whose region lacks `VFIO_REGION_INFO_FLAG_WRITE`. -/
def roDev : VfioDevice :=
  { flags := 0,
    regions := [{ flags := 1, size := 4096, offset := 0, caps := [] }],
    irqs := [] }

/-- A device with a single-vector IRQ at index 0. -/
def oneIrqDev : VfioDevice :=
  { flags := 0, regions := [],
    irqs := [(0, { flags := 0, index := 0, count := 1 })] }

/-!  ## Theorems -/

/-- C9: for every region index at or beyond the length of the regions
list, `get_region_flags`, `get_region_offset` and `get_region_size`
return 0 and `get_region_caps` returns the empty list; none of them can
fail (they are total functions of the device). -/
theorem get_region_accessors_out_of_range (dev : VfioDevice) (index : Nat)
    (h : dev.regions.length ≤ index) :
    dev.get_region_flags index = 0 ∧ dev.get_region_offset index = 0 ∧
      dev.get_region_size index = 0 ∧ dev.get_region_caps index = [] := by
  have hg : dev.regions.get? index = none := List.get?_eq_none.mpr h
  unfold VfioDevice.get_region_flags VfioDevice.get_region_offset
    VfioDevice.get_region_size VfioDevice.get_region_caps
  rw [hg]
  exact ⟨rfl, rfl, rfl, rfl⟩

/-- Witness for C9 at a device with no regions and index 2. -/
theorem get_region_accessors_out_of_range_witness :
    VfioDevice.get_region_flags { flags := 0, regions := [], irqs := [] } 2
        = 0 ∧
      VfioDevice.get_region_offset { flags := 0, regions := [], irqs := [] } 2
        = 0 ∧
      VfioDevice.get_region_size { flags := 0, regions := [], irqs := [] } 2
        = 0 ∧
      VfioDevice.get_region_caps { flags := 0, regions := [], irqs := [] } 2
        = [] :=
  get_region_accessors_out_of_range
    { flags := 0, regions := [], irqs := [] } 2 (by decide)

/-- C7: `region_write` is a no-op (no write attempted) whenever the
target region's `VFIO_REGION_INFO_FLAG_WRITE` bit is unset, for every
buffer length and offset. -/
theorem region_write_readonly_noop (dev : VfioDevice)
    (index bufLen addr : Nat) (region : VfioRegion)
    (h : dev.regions.get? index = some region)
    (hw : region.flags &&& VFIO_REGION_INFO_FLAG_WRITE = 0) :
    dev.region_write index bufLen addr = false := by
  unfold VfioDevice.region_write
  rw [h]
  simp [hw]

/-- Witness for C7 on a read-only region with an otherwise valid
transfer. -/
theorem region_write_readonly_noop_witness :
    VfioDevice.region_write roDev 0 16 0 = false :=
  region_write_readonly_noop roDev 0 16 0
    { flags := 1, size := 4096, offset := 0, caps := [] } rfl (by decide)

/-- C6: `put_group` removes the map entry exactly when the strong count
is 3 and both the hypervisor detach and the container unbind succeed;
any other strong count leaves the map untouched, and a detach or unbind
failure with count 3 is swallowed, leaving the entry in place. -/
theorem put_group_spec (groups : List (Nat × Unit)) (gid strongCount : Nat)
    (delGroupOk : Bool) (unbindRet : Int) :
    (strongCount ≠ 3 →
      VfioContainer.put_group groups gid strongCount delGroupOk unbindRet
        = groups)
    ∧ (strongCount = 3 → delGroupOk = true → 0 ≤ unbindRet →
      VfioContainer.put_group groups gid strongCount delGroupOk unbindRet
          = groupsRemove groups gid
        ∧ ∀ p ∈ groupsRemove groups gid, p.1 ≠ gid)
    ∧ (strongCount = 3 → (delGroupOk = false ∨ unbindRet < 0) →
      VfioContainer.put_group groups gid strongCount delGroupOk unbindRet
        = groups) := by
  refine ⟨?_, ?_, ?_⟩
  · intro hc
    unfold VfioContainer.put_group
    rw [if_neg hc]
  · intro hc hdel hret
    constructor
    · unfold VfioContainer.put_group
      rw [if_pos hc, hdel]
      simp [Int.not_lt.mpr hret]
    · intro p hp
      have := List.mem_filter.mp hp
      simpa using this.2
  · intro hc hfail
    unfold VfioContainer.put_group
    rw [if_pos hc]
    rcases hfail with hdel | hret
    · rw [hdel]
      simp
    · simp [hret]

/-- Witness for C6: with exactly three holders and successful detach and
unbind, the entry for group 7 is removed. -/
theorem put_group_spec_witness :
    VfioContainer.put_group [(7, ())] 7 3 true 0 = groupsRemove [(7, ())] 7 :=
  ((put_group_spec [(7, ())] 7 3 true 0).2.1 rfl rfl (by decide)).1

/-- C4 (failing input): on a device whose IRQ index 0 has `count = 1`,
`trigger_irq(0, 1)` — the boundary `vector == irq.count`, which the claim
requires to fail with `VfioDeviceSetIrq` before any kernel call — passes
the guard `irq.count < vector`, issues the `VFIO_DEVICE_SET_IRQS` ioctl
(first component `true`) and returns `Ok` when the kernel accepts it. -/
theorem trigger_irq_boundary_vector_issued :
    VfioDevice.trigger_irq oneIrqDev 0 0 1 = (true, .ok ()) := rfl

/-- C8 (counterexample): a group-status reply whose flags word is
`VFIO_GROUP_FLAGS_VIABLE ||| VFIO_GROUP_FLAGS_CONTAINER_SET` (= 3) has
the viable bit set, yet `VfioGroup::new` fails with `GroupViable`,
because the source compares the whole flags word against
`VFIO_GROUP_FLAGS_VIABLE` for equality instead of testing the bit. -/
theorem group_viable_bit_set_still_rejected :
    (VFIO_GROUP_FLAGS_VIABLE ||| VFIO_GROUP_FLAGS_CONTAINER_SET)
        &&& VFIO_GROUP_FLAGS_VIABLE ≠ 0 ∧
      VfioGroup.new true 0
          (VFIO_GROUP_FLAGS_VIABLE ||| VFIO_GROUP_FLAGS_CONTAINER_SET) 7
        = .error .GroupViable :=
  ⟨by decide, rfl⟩

/-- C8 (amended): whenever the group control file opens and the status
ioctl succeeds, `VfioGroup::new` fails with `GroupViable` exactly when
the status flags word differs from `VFIO_GROUP_FLAGS_VIABLE` — an exact
equality test on the whole word, not a test of the viable bit. -/
theorem group_new_viability_exact (openOk : Bool) (statusRet : Int)
    (statusFlags id : Nat) (hopen : openOk = true)
    (hret : 0 ≤ statusRet) :
    VfioGroup.new openOk statusRet statusFlags id = .error .GroupViable ↔
      statusFlags ≠ VFIO_GROUP_FLAGS_VIABLE := by
  subst hopen
  unfold VfioGroup.new
  rw [if_neg (by simp), if_neg (Int.not_lt.mpr hret)]
  by_cases hf : statusFlags ≠ VFIO_GROUP_FLAGS_VIABLE
  · rw [if_pos hf]
    simp [hf]
  · rw [if_neg hf]
    simp [hf]

/-- Witness for C8 (amended) at flags word 3. -/
theorem group_new_viability_exact_witness :
    VfioGroup.new true 0 3 7 = .error .GroupViable :=
  (group_new_viability_exact true 0 3 7 rfl (by decide)).mpr (by decide)

/-- C5 (counterexample): on a 4096-byte region, a 16-byte read at offset
`2^64 - 16` has true sum `2^64 > 4096`, so the claim demands a no-op for
it; but Rust `u64` addition wraps, `(addr + size) mod 2^64 = 0` passes
both guards, and the transfer is attempted. -/
theorem region_read_overflow_attempted :
    4096 < 18446744073709551600 + 16 ∧
      VfioDevice.region_read rwDev 0 16 18446744073709551600 = true :=
  ⟨by decide, rfl⟩

/-- Unfolding lemma: `region_read` on an in-range index. -/
theorem region_read_some (dev : VfioDevice) (index bufLen addr : Nat)
    (region : VfioRegion) (h : dev.regions.get? index = some region) :
    dev.region_read index bufLen addr =
      if region.size < bufLen ∨ region.size < (addr + bufLen) % u64Mod then
        false
      else true := by
  unfold VfioDevice.region_read
  rw [h]

/-- Unfolding lemma: `region_write` on an in-range index. -/
theorem region_write_some (dev : VfioDevice) (index bufLen addr : Nat)
    (region : VfioRegion) (h : dev.regions.get? index = some region) :
    dev.region_write index bufLen addr =
      if region.size < bufLen ∨ region.size < (addr + bufLen) % u64Mod ∨
          region.flags &&& VFIO_REGION_INFO_FLAG_WRITE = 0 then
        false
      else true := by
  unfold VfioDevice.region_write
  rw [h]

/-- C5 (amended): for an in-range region and any `addr`, `bufLen` whose
true sum does not overflow `u64`, `region_read` attempts the transfer
exactly when `addr + bufLen ≤ region.size` (so `== size` transfers and
`== size + 1` is a no-op), and so does `region_write` when the region is
writable; when the sum overflows, the wrapped comparison decides. -/
theorem region_io_bounds_exact (dev : VfioDevice) (index bufLen addr : Nat)
    (region : VfioRegion) (h : dev.regions.get? index = some region)
    (hov : addr + bufLen < u64Mod) :
    (dev.region_read index bufLen addr = true ↔
        addr + bufLen ≤ region.size)
    ∧ (region.flags &&& VFIO_REGION_INFO_FLAG_WRITE ≠ 0 →
        (dev.region_write index bufLen addr = true ↔
          addr + bufLen ≤ region.size)) := by
  have hmod : (addr + bufLen) % u64Mod = addr + bufLen := Nat.mod_eq_of_lt hov
  constructor
  · rw [region_read_some dev index bufLen addr region h, hmod]
    by_cases hc : region.size < bufLen ∨ region.size < addr + bufLen
    · rw [if_pos hc]
      exact iff_of_false (by simp) (by omega)
    · rw [if_neg hc]
      push_neg at hc
      exact iff_of_true rfl (by omega)
  · intro hw
    rw [region_write_some dev index bufLen addr region h, hmod]
    by_cases hc : region.size < bufLen ∨ region.size < addr + bufLen ∨
        region.flags &&& VFIO_REGION_INFO_FLAG_WRITE = 0
    · rw [if_pos hc]
      refine iff_of_false (by simp) ?_
      rcases hc with hc | hc | hc
      · omega
      · omega
      · exact absurd hc hw
    · rw [if_neg hc]
      push_neg at hc
      obtain ⟨h1, h2, _⟩ := hc
      exact iff_of_true rfl (by omega)

/-- Witness for C5 (amended): the boundary transfer `addr + bufLen ==
region.size` (4080 + 16 = 4096) is attempted. -/
theorem region_io_bounds_exact_witness :
    VfioDevice.region_read rwDev 0 16 4080 = true :=
  ((region_io_bounds_exact rwDev 0 16 4080
      { flags := 3, size := 4096, offset := 0, caps := [] } rfl
      (by decide)).1).mpr (by decide)

/-- The empty container state. -/
def emptyState : ContainerState :=
  { groups := [], bound := [], iommuSet := false, attached := [] }

/-- Oracle for a failing `VFIO_GROUP_SET_CONTAINER` bind. -/
def bindFailOracle : GetGroupOracle :=
  { groupNew := .ok (), bindRet := -1, setIommuRet := 0, attachOk := true }

/-- On every error from `get_group`, the post-call state is the pre-call
state, except that a hypervisor-attach failure on the first group can
leave the IOMMU backend selected. -/
theorem get_group_error_state (st : ContainerState) (o : GetGroupOracle)
    (gid : Nat) (e : VfioError)
    (h : (VfioContainer.get_group st o gid).2 = .error e) :
    (VfioContainer.get_group st o gid).1 = st ∨
      (VfioContainer.get_group st o gid).1 = { st with iommuSet := true } := by
  by_cases hmem : gid ∈ st.groups
  · exfalso
    simp [VfioContainer.get_group, hmem] at h
  · rcases hgn : o.groupNew with e' | u
    · left
      simp [VfioContainer.get_group, hmem, hgn]
    · by_cases hbind : o.bindRet < 0
      · left
        simp [VfioContainer.get_group, hmem, hgn, hbind]
      · by_cases hlen : st.groups = []
        · by_cases hio : o.setIommuRet < 0
          · left
            simp [VfioContainer.get_group, hmem, hgn, hbind, hlen, hio]
          · by_cases hatt : o.attachOk = false
            · right
              simp [VfioContainer.get_group, hmem, hgn, hbind, hlen, hio,
                hatt]
            · exfalso
              simp [VfioContainer.get_group, hmem, hgn, hbind, hlen, hio,
                hatt] at h
        · by_cases hatt : o.attachOk = false
          · left
            simp [VfioContainer.get_group, hmem, hgn, hbind, hlen, hatt]
          · exfalso
            simp [VfioContainer.get_group, hmem, hgn, hbind, hlen, hatt]
              at h

/-- C1: whenever `get_group` returns an error — group creation failure,
bind failure, IOMMU selection failure or hypervisor attach failure — the
group map is exactly as before the call and any group-to-container bind
performed during the call has been unwound, so an immediate retry with
the same identifier (and a cooperating kernel) succeeds. -/
theorem get_group_rollback (st : ContainerState) (o : GetGroupOracle)
    (gid : Nat) (e : VfioError)
    (h : (VfioContainer.get_group st o gid).2 = .error e) :
    (VfioContainer.get_group st o gid).1.groups = st.groups
    ∧ (VfioContainer.get_group st o gid).1.bound = st.bound
    ∧ (VfioContainer.get_group (VfioContainer.get_group st o gid).1
        okOracle gid).2 = .ok gid := by
  have hmem : gid ∉ st.groups := by
    intro hm
    simp [VfioContainer.get_group, hm] at h
  have hretry : ∀ st' : ContainerState, gid ∉ st'.groups →
      (VfioContainer.get_group st' okOracle gid).2 = .ok gid := by
    intro st' hm
    simp [VfioContainer.get_group, hm, okOracle]
  rcases get_group_error_state st o gid e h with h1 | h1 <;> rw [h1]
  · exact ⟨rfl, rfl, hretry st hmem⟩
  · exact ⟨rfl, rfl, hretry _ hmem⟩

/-- Witness for C1: a failing bind on an empty container leaves the state
untouched and the retry under a cooperating kernel succeeds. -/
theorem get_group_rollback_witness :
    (VfioContainer.get_group emptyState bindFailOracle 7).1.groups
        = emptyState.groups
    ∧ (VfioContainer.get_group emptyState bindFailOracle 7).1.bound
        = emptyState.bound
    ∧ (VfioContainer.get_group
        (VfioContainer.get_group emptyState bindFailOracle 7).1
        okOracle 7).2 = .ok 7 :=
  get_group_rollback emptyState bindFailOracle 7 .GroupSetContainer rfl

/-- The discovery loop keeps exactly the surviving indices' regions. -/
theorem get_regions_from_eq_map (q : Nat → RegionQuery) :
    ∀ n i, get_regions_from q i n = (succIndicesFrom q i n).map (regionOf q) := by
  intro n
  induction n with
  | zero => intro i; rfl
  | succ n ih =>
    intro i
    unfold get_regions_from succIndicesFrom
    by_cases hs : querySuccess q i = true
    · rw [if_pos hs, if_pos hs, List.map_cons, ih]
    · rw [if_neg hs, if_neg hs, ih]

/-- Every surviving index lies at or beyond the loop's start index. -/
theorem succIndicesFrom_mem (q : Nat → RegionQuery) :
    ∀ n i x, x ∈ succIndicesFrom q i n → i ≤ x := by
  intro n
  induction n with
  | zero =>
    intro i x hx
    simp [succIndicesFrom] at hx
  | succ n ih =>
    intro i x hx
    unfold succIndicesFrom at hx
    by_cases hs : querySuccess q i = true
    · rw [if_pos hs] at hx
      rcases List.mem_cons.mp hx with h | h
      · omega
      · have := ih (i + 1) x h
        omega
    · rw [if_neg hs] at hx
      have := ih (i + 1) x hx
      omega

/-- The surviving indices are strictly increasing. -/
theorem succIndicesFrom_chain (q : Nat → RegionQuery) :
    ∀ n i, List.Chain' (· < ·) (succIndicesFrom q i n) := by
  intro n
  induction n with
  | zero => intro i; simp [succIndicesFrom]
  | succ n ih =>
    intro i
    unfold succIndicesFrom
    by_cases hs : querySuccess q i = true
    · rw [if_pos hs]
      refine List.chain'_cons'.mpr ⟨?_, ih (i + 1)⟩
      intro y hy
      have hmem := List.mem_of_mem_head? hy
      have := succIndicesFrom_mem q n (i + 1) y hmem
      omega
    · rw [if_neg hs]
      exact ih (i + 1)

/-- Positional index versus kernel index for the surviving indices. -/
theorem succIndicesFrom_get (q : Nat → RegionQuery) :
    ∀ n i j k, (succIndicesFrom q i n).get? j = some k →
      i + j ≤ k ∧
        ((∃ f, i ≤ f ∧ f < k ∧ querySuccess q f = false) → i + j < k) := by
  intro n
  induction n with
  | zero =>
    intro i j k hk
    simp [succIndicesFrom] at hk
  | succ n ih =>
    intro i j k hk
    unfold succIndicesFrom at hk
    by_cases hs : querySuccess q i = true
    · rw [if_pos hs] at hk
      match j with
      | 0 =>
        rw [List.get?_cons_zero] at hk
        have hik : i = k := by injection hk
        constructor
        · omega
        · rintro ⟨f, hif, hfk, -⟩
          omega
      | j + 1 =>
        rw [List.get?_cons_succ] at hk
        have hih := ih (i + 1) j k hk
        constructor
        · omega
        · rintro ⟨f, hif, hfk, hfail⟩
          have hne : f ≠ i := by
            intro hfi
            rw [hfi, hs] at hfail
            exact absurd hfail (by simp)
          have := hih.2 ⟨f, by omega, hfk, hfail⟩
          omega
    · rw [if_neg hs] at hk
      have hih := ih (i + 1) j k hk
      exact ⟨by omega, fun _ => by omega⟩

/-- C10: `get_regions` returns exactly the regions of the successful
kernel indices, in increasing kernel-index order, compacted: the region
at position `j` comes from the `j`-th successful kernel index, `j` never
exceeds that kernel index, and `j` is strictly smaller as soon as any
smaller kernel index failed. -/
theorem get_regions_spec (num : Nat) (q : Nat → RegionQuery) :
    VfioDeviceInfo.get_regions num q
        = (succIndicesFrom q 0 num).map (regionOf q)
    ∧ List.Chain' (· < ·) (succIndicesFrom q 0 num)
    ∧ ∀ j k, (succIndicesFrom q 0 num).get? j = some k →
        j ≤ k ∧ ((∃ f, f < k ∧ querySuccess q f = false) → j < k) := by
  refine ⟨?_, succIndicesFrom_chain q num 0, ?_⟩
  · unfold VfioDeviceInfo.get_regions VFIO_PCI_BAR0_REGION_INDEX
    exact get_regions_from_eq_map q num 0
  · intro j k hk
    have h := succIndicesFrom_get q num 0 j k hk
    refine ⟨by omega, ?_⟩
    rintro ⟨f, hfk, hfail⟩
    have := h.2 ⟨f, Nat.zero_le f, hfk, hfail⟩
    omega

/-- A query oracle whose kernel index 1 fails and all others succeed. -/
def qW : Nat → RegionQuery := fun i =>
  if i = 1 then
    { ioctlRet := -1, flags := 0, size := 0, offset := 0, mapOk := true,
      caps := [] }
  else
    { ioctlRet := 0, flags := 1, size := 4096, offset := 0, mapOk := true,
      caps := [] }

/-- Witness for C10: with index 1 failing out of three, the result is the
two surviving regions and the region at position 1 comes from kernel
index 2. -/
theorem get_regions_spec_witness :
    VfioDeviceInfo.get_regions 3 qW = [regionOf qW 0, regionOf qW 2]
      ∧ 1 < 2 := by
  constructor
  · rw [(get_regions_spec 3 qW).1]
    rfl
  · exact ((get_regions_spec 3 qW).2.2 1 2 (by decide)).2
      ⟨1, by decide, by decide⟩

/-- The all-zero reply buffer (and surrounding memory). -/
def zeroMem : Nat → Nat := fun _ => 0

/-- A reply buffer whose header at offset 32 names itself as its `next`:
bytes 36..39 hold the little-endian value 32. -/
def cycleMem : Nat → Nat := fun n => if n = 36 then 32 else 0

/-- A 40-byte reply buffer (`argsz = 40`) whose single in-bounds header
at offset 32 has `next = 40`, pointing exactly at the buffer's end:
bytes 36..39 hold the little-endian value 40. -/
def oobMem : Nat → Nat := fun n => if n = 36 then 40 else 0

/-- C2 (counterexample): on the 40-byte buffer `oobMem`, the walk
terminates after visiting offsets 32 and 40, and its second iteration
dereferences the 8-byte header at offset 40 — at the buffer's end — so
its read footprint is not contained in the `argsz = 40` buffer. -/
theorem capwalk_reads_past_buffer :
    capWalk oobMem 10 32 = some ([32, 40], [])
      ∧ walkReadsWithin oobMem 40 10 32 = false :=
  ⟨rfl, rfl⟩

/-- The walk never exits from start offset `off`: every fuel bound is
exhausted (the source's `while` loop runs forever). -/
def capWalkDiverges (mem : Nat → Nat) (off : Nat) : Prop :=
  ∀ fuel, capWalk mem fuel off = none

/-- C3 (counterexample): on the buffer whose header at offset 32 has
`next = 32`, the walk never terminates — there is exactly one capability
entry in the buffer, yet no iteration bound suffices. -/
theorem capwalk_cycle_diverges : capWalkDiverges cycleMem 32 := by
  intro fuel
  induction fuel with
  | zero => rfl
  | succ f ih =>
    have hnext : capNext cycleMem 32 = 32 := rfl
    show capWalk cycleMem (f + 1) 32 = none
    unfold capWalk
    rw [if_neg (by decide), hnext, ih]

/-- A `next` field read is a `u32`: it is below 2^32. -/
theorem capNext_lt_u32 (mem : Nat → Nat) (off : Nat) :
    capNext mem off < 4294967296 := by
  unfold capNext readU32 readByte
  have h0 : mem (off + 4) % 256 < 256 := Nat.mod_lt _ (by norm_num)
  have h1 : mem (off + 4 + 1) % 256 < 256 := Nat.mod_lt _ (by norm_num)
  have h2 : mem (off + 4 + 2) % 256 < 256 := Nat.mod_lt _ (by norm_num)
  have h3 : mem (off + 4 + 3) % 256 < 256 := Nat.mod_lt _ (by norm_num)
  omega

/-- A start offset below the fixed structure size exits immediately,
whatever the fuel. -/
theorem capWalk_base (mem : Nat → Nat) (fuel off : Nat)
    (h : off < regionInfoSize) : capWalk mem fuel off = some ([], []) := by
  cases fuel <;> simp [capWalk, h]

/-- Fuel `2^32 - off` suffices when every header's `next` either exits
the loop or strictly increases. -/
theorem capWalk_total (mem : Nat → Nat)
    (hinc : ∀ o, regionInfoSize ≤ o →
      capNext mem o < regionInfoSize ∨ o < capNext mem o) :
    ∀ n off, off < 4294967296 → 4294967296 - off ≤ n →
      (capWalk mem n off).isSome = true := by
  intro n
  induction n with
  | zero =>
    intro off h1 h2
    omega
  | succ f ih =>
    intro off h1 h2
    by_cases hlt : off < regionInfoSize
    · rw [capWalk_base mem (f + 1) off hlt]
      rfl
    · have h32 : regionInfoSize ≤ off := Nat.le_of_not_lt hlt
      rcases hinc off h32 with hn | hn
      · have hb := capWalk_base mem f (capNext mem off) hn
        unfold capWalk
        rw [if_neg hlt, hb]
        rfl
      · have hn2 : capNext mem off < 4294967296 := capNext_lt_u32 mem off
        have hrec := ih (capNext mem off) hn2 (by omega)
        obtain ⟨val, hval⟩ := Option.isSome_iff_exists.mp hrec
        obtain ⟨offs, caps⟩ := val
        unfold capWalk
        rw [if_neg hlt, hval]
        rfl

/-- The offsets a terminating walk visits start at its entry offset, and
when every `next` either exits or strictly increases they are strictly
increasing — one iteration per distinct capability entry. -/
theorem capWalk_offsets (mem : Nat → Nat)
    (hinc : ∀ o, regionInfoSize ≤ o →
      capNext mem o < regionInfoSize ∨ o < capNext mem o) :
    ∀ n off offs caps, capWalk mem n off = some (offs, caps) →
      (∀ x ∈ offs, off ≤ x) ∧ List.Chain' (· < ·) offs := by
  intro n
  induction n with
  | zero =>
    intro off offs caps h
    by_cases hlt : off < regionInfoSize
    · rw [capWalk_base mem 0 off hlt] at h
      have : ([] : List Nat) = offs := by injection h with h'; exact congrArg Prod.fst h'
      subst this
      simp
    · simp [capWalk, hlt] at h
  | succ f ih =>
    intro off offs caps h
    by_cases hlt : off < regionInfoSize
    · rw [capWalk_base mem (f + 1) off hlt] at h
      have : ([] : List Nat) = offs := by injection h with h'; exact congrArg Prod.fst h'
      subst this
      simp
    · have h32 : regionInfoSize ≤ off := Nat.le_of_not_lt hlt
      unfold capWalk at h
      rw [if_neg hlt] at h
      rcases hrec : capWalk mem f (capNext mem off) with _ | pr
      · rw [hrec] at h
        exact absurd h (by simp)
      · obtain ⟨offs', caps'⟩ := pr
        rw [hrec] at h
        have hoffs : off :: offs' = offs := by
          injection h with h'
          exact congrArg Prod.fst h'
        subst hoffs
        have hih := ih (capNext mem off) offs' caps' hrec
        constructor
        · intro x hx
          rcases List.mem_cons.mp hx with rfl | hx'
          · exact Nat.le_refl _
          · rcases hinc off h32 with hn | hn
            · rw [capWalk_base mem f (capNext mem off) hn] at hrec
              have : ([] : List Nat) = offs' := by
                injection hrec with h'
                exact congrArg Prod.fst h'
              rw [← this] at hx'
              simp at hx'
            · have := hih.1 x hx'
              omega
        · refine List.chain'_cons'.mpr ⟨?_, hih.2⟩
          intro y hy
          have hymem := List.mem_of_mem_head? hy
          rcases hinc off h32 with hn | hn
          · rw [capWalk_base mem f (capNext mem off) hn] at hrec
            have : ([] : List Nat) = offs' := by
              injection hrec with h'
              exact congrArg Prod.fst h'
            rw [← this] at hymem
            simp at hymem
          · have := hih.1 y hymem
            omega

/-- C3 (amended): the walk terminates — within fuel 2^32, visiting each
header offset at most once, in strictly increasing order — for every
reply buffer in which each header's `next` offset either falls below the
fixed structure size (the loop's exit test) or strictly exceeds the
header's own offset; with a cyclic or non-increasing `next` chain it can
loop forever (`capwalk_cycle_diverges`). -/
theorem capWalk_terminates_of_increasing (mem : Nat → Nat) (off : Nat)
    (hoff : off < 4294967296)
    (hinc : ∀ o, regionInfoSize ≤ o →
      capNext mem o < regionInfoSize ∨ o < capNext mem o) :
    (capWalk mem 4294967296 off).isSome = true
    ∧ ∀ offs caps, capWalk mem 4294967296 off = some (offs, caps) →
        List.Chain' (· < ·) offs := by
  constructor
  · exact capWalk_total mem hinc 4294967296 off hoff (by omega)
  · intro offs caps h
    exact (capWalk_offsets mem hinc 4294967296 off offs caps h).2

/-- Witness for C3 (amended) on the all-zero buffer, whose every `next`
is 0 and thus exits at once. -/
theorem capWalk_terminates_of_increasing_witness :
    (capWalk zeroMem 4294967296 32).isSome = true := by
  have hinc : ∀ o, regionInfoSize ≤ o →
      capNext zeroMem o < regionInfoSize ∨ o < capNext zeroMem o := by
    intro o _
    left
    simp [capNext, readU32, readByte, zeroMem, regionInfoSize]
  exact (capWalk_terminates_of_increasing zeroMem 32 (by decide) hinc).1

/-- C2 (amended): the walk checks only the lower bound — every visited
header offset is at or beyond the fixed 32-byte structure — and its read
footprint stays inside the `argsz`-sized buffer exactly under the kernel
contract that each visited capability structure lies within `argsz`;
with an adversarial `next` it reads past the end
(`capwalk_reads_past_buffer`). -/
theorem capWalk_lower_bound_and_inbounds (mem : Nat → Nat) (argsz : Nat) :
    ∀ fuel off offs caps,
      capWalk mem fuel off = some (offs, caps) →
      (∀ o ∈ offs, capExtent mem o ≤ argsz) →
      (∀ o ∈ offs, regionInfoSize ≤ o)
      ∧ walkReadsWithin mem argsz fuel off = true := by
  intro fuel
  induction fuel with
  | zero =>
    intro off offs caps h hb
    by_cases hlt : off < regionInfoSize
    · rw [capWalk_base mem 0 off hlt] at h
      have : ([] : List Nat) = offs := by injection h with h'; exact congrArg Prod.fst h'
      subst this
      exact ⟨by simp, rfl⟩
    · simp [capWalk, hlt] at h
  | succ f ih =>
    intro off offs caps h hb
    by_cases hlt : off < regionInfoSize
    · rw [capWalk_base mem (f + 1) off hlt] at h
      have : ([] : List Nat) = offs := by injection h with h'; exact congrArg Prod.fst h'
      subst this
      refine ⟨by simp, ?_⟩
      unfold walkReadsWithin
      rw [if_pos hlt]
    · have h32 : regionInfoSize ≤ off := Nat.le_of_not_lt hlt
      unfold capWalk at h
      rw [if_neg hlt] at h
      rcases hrec : capWalk mem f (capNext mem off) with _ | pr
      · rw [hrec] at h
        exact absurd h (by simp)
      · obtain ⟨offs', caps'⟩ := pr
        rw [hrec] at h
        have hoffs : off :: offs' = offs := by
          injection h with h'
          exact congrArg Prod.fst h'
        subst hoffs
        have hbo : capExtent mem off ≤ argsz := hb off (List.mem_cons_self off offs')
        have hb' : ∀ o ∈ offs', capExtent mem o ≤ argsz := fun o ho =>
          hb o (List.mem_cons_of_mem off ho)
        have hih := ih (capNext mem off) offs' caps' hrec hb'
        constructor
        · intro x hx
          rcases List.mem_cons.mp hx with rfl | hx'
          · exact h32
          · exact hih.1 x hx'
        · unfold walkReadsWithin
          rw [if_neg hlt, hih.2, decide_eq_true hbo]
          rfl

/-- Witness for C2 (amended): on the all-zero buffer with `argsz = 40`,
the single visited header's extent (40) fits, and the walk's reads stay
within the buffer. -/
theorem capWalk_lower_bound_and_inbounds_witness :
    walkReadsWithin zeroMem 40 1 32 = true :=
  (capWalk_lower_bound_and_inbounds zeroMem 40 1 32 [32] []
    (by decide) (by decide)).2

end Vfio
